import Mathlib

/-!
Verification of the lcp request-routing engine (package `rest`).

The Go sources (lib/rest/curly.go, curly_route.go, route.go, route_builder.go,
custom_verb.go, webservice/path-processor files) are shallowly embedded below.
Strings are modelled as Lean `String` over their character lists; Go byte
indexing coincides with character indexing because every string exercised by
the routing engine is ASCII.  Go's `regexp` package is not reimplemented:
compiled-pattern matching is abstracted by an explicit oracle
`rm : String → String → Bool` ("does the regex compiled from the first string
match the second string") together with `compiles : String → Bool` ("does the
first string compile as a regex"); the shared `regexCache` (a `sync.Map` from
pattern-key to compiled regex) is modelled as an association list from the key
to the *source text* that was compiled into the stored regex.
-/

namespace LCP

/-- Character list of a string (Go strings are byte slices; ASCII assumed). -/
def chars (s : String) : List Char := s.data

/-- Build a string back from its characters. -/
def ofChars (cs : List Char) : String := String.mk cs

/-- Index of the first occurrence of character `c`, models `strings.Index`
for a single-character needle (`none` models Go's `-1`). -/
def cIndexOf (c : Char) : List Char → Option Nat
  | [] => none
  | a :: as => if a = c then some 0 else (cIndexOf c as).map (· + 1)

/-- Models `strings.Contains(s, c)` for a single-character needle. -/
def strContains (s : String) (c : Char) : Bool := (cIndexOf c (chars s)).isSome

/-- Models `strings.Index(s, c)` for a single-character needle. -/
def strIndex (s : String) (c : Char) : Option Nat := cIndexOf c (chars s)

/-- Drop characters satisfying `p` from the end of a list
(models `strings.TrimRight` / the right half of `strings.Trim`). -/
def dropTrailing (p : Char → Bool) : List Char → List Char
  | [] => []
  | c :: cs =>
    match dropTrailing p cs with
    | [] => if p c then [] else [c]
    | r => c :: r

/-- Models `strings.Trim(s, cutset)` for a single-character cutset. -/
def trimChar (c : Char) (s : String) : String :=
  ofChars (dropTrailing (· = c) ((chars s).dropWhile (· = c)))

/-- Split a character list on a separator, keeping empty fields
(models `strings.Split`). -/
def splitOn (sep : Char) : List Char → List (List Char)
  | [] => [[]]
  | c :: cs =>
    match splitOn sep cs with
    | t :: ts => if c = sep then [] :: t :: ts else (c :: t) :: ts
    | [] => [[c]]

/-- Go slicing `s[a:b]` (`none` models the runtime bounds panic). -/
def goSlice (s : String) (a b : Nat) : Option String :=
  if a ≤ b ∧ b ≤ (chars s).length then
    some (ofChars (((chars s).drop a).take (b - a)))
  else none

/-- Go slicing `s[a:b]` with possibly negative (Int) bounds. -/
def goSliceI (s : String) (a b : Int) : Option String :=
  if 0 ≤ a ∧ a ≤ b ∧ b ≤ (chars s).length then
    some (ofChars (((chars s).drop a.toNat).take (b - a).toNat))
  else none

/-- Models `strings.Join(xs, sep)`. -/
def joinSep (sep : String) : List String → String
  | [] => ""
  | [x] => x
  | x :: xs => x ++ sep ++ joinSep sep xs

/-- `tokenizePath` from lib/rest/route.go: `"/"` gives no tokens, otherwise
split the `/`-trimmed path on `/` (keeping embedded empty tokens). -/
def tokenizePath (path : String) : List String :=
  if path = "/" then []
  else (splitOn '/' (chars (trimChar '/' path))).map ofChars

/-- Modelled from the spec (§4.1): `TokenizePath`, called by
`templateToRegExp`, is not among the files under src/; per the spec the
template token sequence is obtained by splitting on `/` and dropping empty
leading/trailing segments while preserving embedded empty tokens, which is
exactly `tokenizePath`. -/
def TokenizePath (path : String) : List String := tokenizePath path

/-! ### Custom verbs (lib/rest/custom_verb.go)

The fixed regular expression `:([A-Za-z]+)$` is modelled directly: a match
exists iff the token ends in a colon followed by one or more ASCII letters.
`verbSplit` returns the text before that final colon and the verb. -/

/-- `[A-Za-z]`. -/
def isAlphaChar (c : Char) : Bool :=
  ('A' ≤ c ∧ c ≤ 'Z') ∨ ('a' ≤ c ∧ c ≤ 'z')

/-- Decompose `s` as `p ++ ":" ++ v` where `v` is the maximal nonempty run of
letters ending the string; models a `FindStringSubmatch` of `:([A-Za-z]+)$`. -/
def verbSplit (s : String) : Option (String × String) :=
  match (chars s).reverse.dropWhile isAlphaChar with
  | ':' :: restRev =>
    if ((chars s).reverse.takeWhile isAlphaChar).isEmpty then none
    else
      some (ofChars restRev.reverse,
        ofChars ((chars s).reverse.takeWhile isAlphaChar).reverse)
  | _ => none

/-- `hasCustomVerb` from custom_verb.go. -/
def hasCustomVerb (routeToken : String) : Bool := (verbSplit routeToken).isSome

/-- `isMatchCustomVerb` from custom_verb.go: extract the verb `v` of the
route token and match the path token against the generated pattern `:v$`,
i.e. the path token must end in the literal `:v` (verbs contain only letters,
so the generated pattern has no metacharacters; the `customVerbCache` always
maps a pattern to the regex compiled from that same pattern, so the cached
and freshly-compiled cases agree and the cache is semantically invisible). -/
def isMatchCustomVerb (routeToken pathToken : String) : Bool :=
  match verbSplit routeToken with
  | none => false
  | some (_, v) => (chars (":" ++ v)).isSuffixOf (chars pathToken)

/-- `removeCustomVerb` from custom_verb.go: `ReplaceAllString` with the empty
string removes the single possible `:verb` suffix match. -/
def removeCustomVerb (str : String) : String :=
  match verbSplit str with
  | none => str
  | some (p, _) => p

/-! ### The shared regex cache (curly.go `regexCache`)

`sync.Map` from pattern key to compiled regex, modelled as an association
list from the key to the source text the stored regex was compiled from. -/

/-- Cache state: `(key, sourceText)` pairs. -/
abbrev RCache := List (String × String)

/-- `getCachedRegexp` (custom_verb.go): look a key up in the cache. -/
def lookupCache (cache : RCache) (pattern : String) : Option String :=
  match cache with
  | [] => none
  | (k, v) :: rest => if k = pattern then some v else lookupCache rest pattern

/-- `sync.Map.Store`: insert or overwrite. -/
def storeCache (cache : RCache) (pattern srcText : String) : RCache :=
  match cache with
  | [] => [(pattern, srcText)]
  | (k, v) :: rest =>
    if k = pattern then (pattern, srcText) :: rest
    else (k, v) :: storeCache rest pattern srcText

/-- `regularMatchesPathToken` from curly.go.  `rm pat s` is the abstract
regex oracle ("the regex compiled from `pat` matches `s`"), `compiles pat`
tells whether `pat` compiles.  Faithful to the source: the wildcard `*`
short-circuits; a cache hit matches the request token against the stored
regex; on a miss the code compiles `requestToken` (not the pattern text
`regPart`), stores that regex under the key `regPart`, and matches
`requestToken` against it; a compile failure returns no match.
(The slice `routeToken[colon+1 : len-1]` is in bounds at every call site
exercised here; `goSlice … |>.getD ""` keeps the definition total.) -/
def regularMatchesPathToken (rm : String → String → Bool)
    (compiles : String → Bool) (cache : RCache)
    (routeToken : String) (colon : Nat) (requestToken : String) :
    (Bool × Bool) × RCache :=
  let regPart := (goSlice routeToken (colon + 1) ((chars routeToken).length - 1)).getD ""
  if regPart = "*" then ((true, true), cache)
  else
    match lookupCache cache regPart with
    | some storedText => ((rm storedText requestToken, false), cache)
    | none =>
      if compiles requestToken then
        ((rm requestToken requestToken, false), storeCache cache regPart requestToken)
      else ((false, false), cache)

/-- Loop body of `computeWebServiceScore` (curly.go), accumulating the score;
on failure Go returns the score accumulated so far together with `false`.
The `(rt :: rts, [])` case is unreachable under the caller's length guard. -/
def cwsAux (rm : String → String → Bool) (compiles : String → Bool) :
    List String → List String → Nat → RCache → (Bool × Nat) × RCache
  | [], _, acc, cache => ((true, acc), cache)
  | _ :: _, [], acc, cache => ((false, acc), cache)
  | rt :: rts, req :: reqs, acc, cache =>
    if req = "" ∧ rt = "" then
      cwsAux rm compiles rts reqs (acc + 1) cache
    else if rt ≠ "" ∧ (chars rt).head? = some '\x7b' then
      if req = "" then ((false, acc), cache)
      else
        match strIndex rt ':' with
        | some colon =>
          match regularMatchesPathToken rm compiles cache rt colon req with
          | ((matchesToken, _), cache') =>
            if matchesToken then cwsAux rm compiles rts reqs (acc + 2) cache'
            else cwsAux rm compiles rts reqs (acc + 1) cache'
        | none => cwsAux rm compiles rts reqs (acc + 1) cache
    else
      if req ≠ rt then ((false, acc), cache)
      else cwsAux rm compiles rts reqs (acc + (rts.length + 1) * 10) cache

/-- `computeWebServiceScore` from curly.go: reject if the service has more
tokens than the request, else score the positions (`rts.length + 1` is the
Go loop's `len(routeTokens) - i`). -/
def computeWebServiceScore (rm : String → String → Bool)
    (compiles : String → Bool) (cache : RCache)
    (requestTokens routeTokens : List String) : (Bool × Nat) × RCache :=
  if routeTokens.length > requestTokens.length then ((false, 0), cache)
  else cwsAux rm compiles routeTokens requestTokens 0 cache

/-! ### Routes and web services (route.go, webservice source) -/

/-- `Route` from lib/rest/route.go.  The bound handler (`Function`) carries
no routing semantics and is omitted; all other fields are kept. -/
structure Route where
  Method : String := ""
  Path : String := ""
  Produces : List String := []
  Consumes : List String := []
  relativePath : String := ""
  pathParts : List String := []
  hasCustomVerb : Bool := false
  paramCount : Nat := 0
  staticCount : Nat := 0
deriving DecidableEq, Repr

/-- `Route.postBuild` from route.go. -/
def postBuild (r : Route) : Route :=
  { r with pathParts := tokenizePath r.Path, hasCustomVerb := hasCustomVerb r.Path }

/-- `WebService`: root path, the token list of its compiled root-path
expression (`pathExpr.tokens`), its routes, and the default
produces/consumes lists.  Locks and the api-version field carry no routing
semantics and are omitted. -/
structure WebService where
  rootPath : String := "/"
  tokens : List String := []
  routes : List Route := []
  produces : List String := []
  consumes : List String := []
deriving DecidableEq, Repr

/-- Loop of `detectWebService` (curly.go): best score starts at `-1`, a
matching service with a strictly larger score replaces the selection. -/
def dwsAux (rm : String → String → Bool) (compiles : String → Bool)
    (requestTokens : List String) :
    List WebService → Option WebService → Int → RCache →
    Option WebService × RCache
  | [], sel, _, cache => (sel, cache)
  | ws :: rest, sel, best, cache =>
    match computeWebServiceScore rm compiles cache requestTokens ws.tokens with
    | ((isMatch, serviceScore), cache') =>
      if isMatch ∧ best < (serviceScore : Int) then
        dwsAux rm compiles requestTokens rest (some ws) serviceScore cache'
      else dwsAux rm compiles requestTokens rest sel best cache'

/-- `detectWebService` from curly.go. -/
def detectWebService (rm : String → String → Bool) (compiles : String → Bool)
    (cache : RCache) (requestTokens : List String)
    (webServices : List WebService) : Option WebService × RCache :=
  dwsAux rm compiles requestTokens webServices none (-1) cache

/-- Loop body of `matchesRouteByPathTokens` (curly.go), accumulating
`(paramCount, staticCount)`.  Reaching the end of the request tokens while
route tokens remain fails (`i == len(requestTokens)`); custom verbs are
peeled and compared first; a `{`-token counts as a parameter and, when the
*request* token contains a `:`, is validated by `regularMatchesPathToken`
(called, as in the source, with the request token in the route-token
position); a wildcard remainder match breaks out of the loop successfully;
a literal token must be equal and counts as static. -/
def mrptAux (rm : String → String → Bool) (compiles : String → Bool)
    (routeHasCustomVerb : Bool) :
    List String → List String → Nat → Nat → RCache →
    (Bool × Nat × Nat) × RCache
  | [], _, pc, sc, cache => ((true, pc, sc), cache)
  | _ :: _, [], _, _, cache => ((false, 0, 0), cache)
  | rt₀ :: rts, req₀ :: reqs, pc, sc, cache =>
    if routeHasCustomVerb ∧ hasCustomVerb rt₀ ∧ ¬ isMatchCustomVerb rt₀ req₀ then
      ((false, 0, 0), cache)
    else
      let verbPeel := routeHasCustomVerb ∧ hasCustomVerb rt₀
      let routeToken := if verbPeel then removeCustomVerb rt₀ else rt₀
      let requestToken := if verbPeel then removeCustomVerb req₀ else req₀
      let sc₁ := if verbPeel then sc + 1 else sc
      if (chars routeToken).head? = some '\x7b' then
        match strIndex requestToken ':' with
        | some colon =>
          match regularMatchesPathToken rm compiles cache requestToken colon requestToken with
          | ((matchesToken, matchesRemainder), cache') =>
            if ¬ matchesToken then ((false, 0, 0), cache')
            else if matchesRemainder then ((true, pc + 1, sc₁), cache')
            else mrptAux rm compiles routeHasCustomVerb rts reqs (pc + 1) sc₁ cache'
        | none => mrptAux rm compiles routeHasCustomVerb rts reqs (pc + 1) sc₁ cache
      else
        if requestToken ≠ routeToken then ((false, 0, 0), cache)
        else mrptAux rm compiles routeHasCustomVerb rts reqs pc (sc₁ + 1) cache

/-- `matchesRouteByPathTokens` from curly.go: a route shorter than the
request is admitted only when its last token ends in `*`. -/
def matchesRouteByPathTokens (rm : String → String → Bool)
    (compiles : String → Bool) (cache : RCache)
    (routeTokens requestTokens : List String) (routeHasCustomVerb : Bool) :
    (Bool × Nat × Nat) × RCache :=
  if routeTokens.length < requestTokens.length then
    match routeTokens.getLast? with
    | none => ((false, 0, 0), cache)
    | some lastTok =>
      if (chars lastTok).getLast? = some '*' then
        mrptAux rm compiles routeHasCustomVerb routeTokens requestTokens 0 0 cache
      else ((false, 0, 0), cache)
  else mrptAux rm compiles routeHasCustomVerb routeTokens requestTokens 0 0 cache

/-! ### Candidate ordering (curly_route.go) -/

/-- Strict lexicographic order on lists of character codes. -/
def listLexLt : List Nat → List Nat → Bool
  | _, [] => false
  | [], _ :: _ => true
  | a :: as, b :: bs =>
    if a < b then true else if b < a then false else listLexLt as bs

/-- Go's `<` on strings: byte-wise lexicographic comparison (identical to
code-point comparison on the ASCII strings handled here). -/
def strLt (x y : String) : Bool :=
  listLexLt ((chars x).map fun c => c.val.toNat) ((chars y).map fun c => c.val.toNat)

/-- `sortableCurlyRoutes.Less` from curly_route.go, verbatim: note that the
source binds `a := s[j]` and `b := s[i]`, so `curlyLess x y` (may `x`
strictly precede `y`) compares `a := y` against `b := x`. -/
def curlyLess (x y : Route) : Bool :=
  if y.staticCount < x.staticCount then true
  else if x.staticCount < y.staticCount then false
  else if y.paramCount < x.paramCount then true
  else if x.paramCount < y.paramCount then false
  else strLt y.Path x.Path

/-- `x` may come no later than `y` in an order consistent with
`sortableCurlyRoutes.Less`. -/
def routeBefore (x y : Route) : Prop := curlyLess y x = false

instance : DecidableRel routeBefore := fun _ y => Bool.decEq (curlyLess y _) false

/-- The strict comparator key order: `keyLt a b` says `a`'s
(staticCount, paramCount, Path) triple is lexicographically smaller than
`b`'s, so that `curlyLess x y = true ↔ keyLt y x`. -/
def keyLt (a b : Route) : Prop :=
  a.staticCount < b.staticCount ∨
    (a.staticCount = b.staticCount ∧
      (a.paramCount < b.paramCount ∨
        (a.paramCount = b.paramCount ∧ strLt a.Path b.Path = true)))

/-- `sort.Sort(&candidates)` from `selectRoutes`: Go's sort produces some
arrangement in which no later element bears `Less` to an earlier one; it is
modelled as an insertion sort over the same comparator (the arrangement is
unique whenever all comparator keys are distinct). -/
def sortRoutes (routes : List Route) : List Route :=
  List.insertionSort routeBefore routes

/-- `selectRoutes` from curly.go: compute the match triple for every route
of the service, store the counts on the (copied) route, keep the matching
ones, sort. -/
def selectRoutesAux (rm : String → String → Bool) (compiles : String → Bool) :
    List Route → List String → RCache → List Route × RCache
  | [], _, cache => ([], cache)
  | r :: rest, requestTokens, cache =>
    match matchesRouteByPathTokens rm compiles cache r.pathParts requestTokens
        r.hasCustomVerb with
    | ((isMatch, pc, sc), cache') =>
      match selectRoutesAux rm compiles rest requestTokens cache' with
      | (tailCandidates, cache'') =>
        let r' := { r with paramCount := pc, staticCount := sc }
        (if isMatch then r' :: tailCandidates else tailCandidates, cache'')

/-- `selectRoutes` from curly.go. -/
def selectRoutes (rm : String → String → Bool) (compiles : String → Bool)
    (cache : RCache) (ws : WebService) (requestTokens : List String) :
    List Route × RCache :=
  match selectRoutesAux rm compiles ws.routes requestTokens cache with
  | (candidates, cache') => (sortRoutes candidates, cache')

/-! ### MIME matching (lib/rest/route.go) -/

/-- `parseNextMimeType`'s per-field normalisation: cut at the first `;`,
then trim ASCII spaces on both sides (`stringTrimSpaceCutset`). -/
def mimeTypeOf (field : List Char) : String :=
  ofChars (dropTrailing (· = ' ') ((field.takeWhile (· ≠ ';')).dropWhile (· = ' ')))

/-- The `for` loops of `matchesContentType` / `matchesAccept` over
`parseNextMimeType`: each comma-separated field is tested in turn, and the
loop exits with `false` once the remainder after the current field is empty.
Consequently the fields tested are exactly the comma-split fields, except
that a final *empty* field produced by a trailing comma is never reached
(the remainder is already empty when it would be parsed). -/
def anyMimeMatch (pred : String → Bool) (cs : List Char) : Bool :=
  let fields := splitOn ',' cs
  let tested :=
    if 2 ≤ fields.length ∧ fields.getLast? = some [] then fields.dropLast
    else fields
  tested.any fun field => pred (mimeTypeOf field)

/-- Modelled from the spec: the `MIME_OCTET` constant is not among the files
under src/; it is the conventional octet-stream MIME type.  (Every claim
settled through it holds for any value other than the declared Consumes
entries themselves.) -/
def MIME_OCTET : String := "application/octet-stream"

/-- `Route.matchesContentType` from route.go, faithful to the source: note
that the source assigns `mimeTypes = MIME_OCTET` unconditionally after the
idempotent-method check (the assignment sits *outside* the
`len(mimeTypes) == 0` block), so the loop always scans `MIME_OCTET`. -/
def matchesContentType (r : Route) (mimeTypes : String) : Bool :=
  if r.Consumes.isEmpty then true
  else if mimeTypes = "" ∧ (r.Method = "GET" ∨ r.Method = "HEAD" ∨
      r.Method = "OPTIONS" ∨ r.Method = "DELETE" ∨ r.Method = "TRACE") then
    true
  else
    anyMimeMatch
      (fun mimeType => r.Consumes.any fun c => c = "*/*" ∨ c = mimeType)
      (chars MIME_OCTET)

/-- `Route.matchesAccept` from route.go. -/
def matchesAccept (r : Route) (mimeTypesWithQuality : String) : Bool :=
  anyMimeMatch
    (fun mimeType =>
      if mimeType = "*/*" then true
      else r.Produces.any fun p => p = "*/*" ∨ p = mimeType)
    (chars mimeTypesWithQuality)

/-! ### Service errors and route detection (curly.go `detectRoute`) -/

/-- Modelled from the spec (§3 "Service Error"): the `ServiceError` type and
its constructors are not among the files under src/; per the spec a Service
Error is an HTTP status code, an optional set of response headers and a
message.  Headers follow `http.Header`: name to list of values. -/
structure ServiceError where
  Code : Nat
  Message : String
  Header : List (String × List String) := []
deriving DecidableEq, Repr

/-- `NewError` (modelled from the spec, see `ServiceError`). -/
def NewError (code : Nat) (message : String) : ServiceError :=
  { Code := code, Message := message }

/-- `NewErrorWithHeader` (modelled from the spec, see `ServiceError`). -/
def NewErrorWithHeader (code : Nat) (message : String)
    (header : List (String × List String)) : ServiceError :=
  { Code := code, Message := message, Header := header }

/-- The `allowedLoop` of `detectRoute`: collect each method not collected
before, preserving first-seen order. -/
def dedupFirstSeen (xs : List String) : List String :=
  xs.foldl (fun acc m => if m ∈ acc then acc else acc ++ [m]) []

/-- `detectRoute` from curly.go: filter the (sorted) candidates by HTTP
method (405 with `Allow` header on failure), then by Content-Type (415),
then by Accept, defaulting to `*/*` (406 listing the Produces values);
the first survivor is selected.  The in-place Go filtering
(`candidates = candidates[:0]`, append) reads each element before any write
to its position can occur, so it is an ordinary filter, and in each error
branch nothing was appended, so `previous` is the unmutated input list. -/
def detectRoute (candidateRoutes : List Route)
    (method contentType accept : String) : Except ServiceError Route :=
  if candidateRoutes.isEmpty then
    .error (NewError 404 "404: Route Not Found")
  else
    let prev₁ := candidateRoutes
    let cand₁ := prev₁.filter fun r => method = r.Method
    if cand₁.isEmpty then
      let allowedMethods := dedupFirstSeen (prev₁.map Route.Method)
      .error (NewErrorWithHeader 405 "405: Method Not Allowed"
        [("Allow", [joinSep ", " allowedMethods])])
    else
      let cand₂ := cand₁.filter fun r => matchesContentType r contentType
      if cand₂.isEmpty then
        .error (NewError 415 "415: Unsupported Media Type")
      else
        let accept' := if accept = "" then "*/*" else accept
        let cand₃ := cand₂.filter fun r => matchesAccept r accept'
        match cand₃ with
        | [] =>
          let available := cand₂.foldl (fun acc r => acc ++ r.Produces) []
          .error (NewError 406
            ("406: Not Acceptable\n\nAvailable representations: " ++
              joinSep ", " available))
        | selected :: _ => .ok selected

/-- `CurlyRouter.SelectRoute` from curly.go.  The request is reduced to its
routing-relevant data: URL path, method, and the `Content-Type` and `Accept`
header values (empty string when the header is absent). -/
def SelectRoute (rm : String → String → Bool) (compiles : String → Bool)
    (cache : RCache) (webServices : List WebService)
    (path method contentType accept : String) :
    Except ServiceError (WebService × Route) × RCache :=
  let requestTokens := tokenizePath path
  match detectWebService rm compiles cache requestTokens webServices with
  | (none, cache₁) => (.error (NewError 404 "404: page not found"), cache₁)
  | (some ws, cache₁) =>
    match selectRoutes rm compiles cache₁ ws requestTokens with
    | (candidateRoutes, cache₂) =>
      if candidateRoutes.isEmpty then
        (.error (NewError 404 "404: page not found"), cache₂)
      else
        match detectRoute candidateRoutes method contentType accept with
        | .error e => (.error e, cache₂)
        | .ok selected => (.ok (ws, selected), cache₂)

/-! ### Route builder and web service registration
(lib/rest/route_builder.go, webservice source) -/

/-- `RouteBuilder` from route_builder.go (the handler function is omitted;
`Build`'s fatal registration-time checks — an uncompilable relative path or
a missing handler abort the process via `logger.Fatalf` — are outside the
per-request semantics modelled here). -/
structure RouteBuilder where
  rootPath : String := ""
  currentPath : String := ""
  produces : List String := []
  consumes : List String := []
  httpMethod : String := ""
deriving DecidableEq, Repr

/-- `RouteBuilder.copyDefaults` from route_builder.go. -/
def copyDefaults (b : RouteBuilder) (rootProduces rootConsumes : List String) :
    RouteBuilder :=
  { b with
    produces := if b.produces.isEmpty then rootProduces else b.produces
    consumes := if b.consumes.isEmpty then rootConsumes else b.consumes }

/-- `concatPath` from route_builder.go. -/
def concatPath (rootPath routePath : String) : String :=
  ofChars (dropTrailing (· = '/') (chars rootPath)) ++ "/" ++
    ofChars ((chars routePath).dropWhile (· = '/'))

/-- `RouteBuilder.Build` from route_builder.go (happy path): note that the
`Route` literal in the source sets only `Method`, `Path`, `Function`,
`relativePath` and `pathExpr` — the builder's `produces`/`consumes` fields
are not transferred, so the built route keeps the zero values.  `postBuild`
is run as in the source. -/
def Build (b : RouteBuilder) : Route :=
  postBuild
    { Method := b.httpMethod
      Path := concatPath b.rootPath b.currentPath
      relativePath := b.currentPath }

/-- `WebService.Route` (webservice source): copy the service defaults into
the builder where unset, build, append. -/
def wsRoute (w : WebService) (builder : RouteBuilder) : WebService :=
  { w with routes := w.routes ++ [Build (copyDefaults builder w.produces w.consumes)] }

/-- `WebService.GET` (webservice source): a builder seeded with the service
root path, method GET and the relative path. -/
def wsGET (w : WebService) (subPath : String) : RouteBuilder :=
  { rootPath := w.rootPath, httpMethod := "GET", currentPath := subPath }

/-! ### Path parameter extraction (defaultPathProcessor source) -/

/-- Go map assignment `m[k] = v`: overwrite an existing binding, otherwise
append. -/
def mapInsert (k v : String) : List (String × String) → List (String × String)
  | [] => [(k, v)]
  | (k', v') :: rest =>
    if k' = k then (k, v) :: rest else (k', v') :: mapInsert k v rest

/-- `unTokenizePath`: join the parts from `offset` on with `/`. -/
def unTokenizePath (offset : Nat) (parts : List String) : String :=
  joinSep "/" (parts.drop offset)

/-- Loop of `defaultPathProcessor.ExtractParameters` over the route's path
parts, carried at position `i`.  A position at or beyond the request tokens
yields the empty value.  Custom verbs are stripped from key and value when
the route has one.  A key containing `{` is a parameter: with a colon, the
`*` pattern captures the joined remainder and stops, any other pattern
assigns the raw value; without a colon the value is trimmed by the literal
prefix/suffix spans around the braces.  `none` models the Go slice-bounds
panics (`key[colon+1:len-1]`, `key[1:colon]`, `key[startIndex+1:endKeyIndex]`,
`value[startIndex:endValueIndex]`) faithfully via `goSlice`/`goSliceI`. -/
def extractLoop (routeHasCustomVerb : Bool) (urlParts : List String) :
    Nat → List String → List (String × String) →
    Option (List (String × String))
  | _, [], m => some m
  | i, key₀ :: restKeys, m =>
    let value₀ := if urlParts.length ≤ i then "" else urlParts.getD i ""
    let verbPeel := routeHasCustomVerb ∧ hasCustomVerb key₀
    let key := if verbPeel then removeCustomVerb key₀ else key₀
    let value := if verbPeel then removeCustomVerb value₀ else value₀
    if strContains key '\x7b' then
      match strIndex key ':' with
      | some colon =>
        match goSlice key (colon + 1) ((chars key).length - 1),
            goSlice key 1 colon with
        | some regPart, some keyPart =>
          if regPart = "*" then some (mapInsert keyPart (unTokenizePath i urlParts) m)
          else extractLoop routeHasCustomVerb urlParts (i + 1) restKeys
            (mapInsert keyPart value m)
        | _, _ => none
      | none =>
        match strIndex key '\x7b', strIndex key '\x7d' with
        | some startIndex, some endKeyIndex =>
          let suffixLength : Int := (chars key).length - endKeyIndex - 1
          let endValueIndex : Int := (chars value).length - suffixLength
          match goSlice key (startIndex + 1) endKeyIndex,
              goSliceI value startIndex endValueIndex with
          | some name, some captured =>
            extractLoop routeHasCustomVerb urlParts (i + 1) restKeys
              (mapInsert name captured m)
          | _, _ => none
        | some _, none =>
          -- Go `strings.Index(key, "\x7d") == -1`: `key[startIndex+1 : -1]` panics
          none
        | none, _ => none
    else extractLoop routeHasCustomVerb urlParts (i + 1) restKeys m

/-- `defaultPathProcessor.ExtractParameters`. -/
def ExtractParameters (r : Route) (urlPath : String) :
    Option (List (String × String)) :=
  extractLoop r.hasCustomVerb (tokenizePath urlPath) 0 r.pathParts []

/-! ### Template compilation (`templateToRegExp`, route_test.go source) -/

/-- `strings.TrimSpace` (ASCII whitespace; path templates are ASCII). -/
def trimSpaceStr (s : String) : String :=
  ofChars (dropTrailing (fun c => c = ' ' ∨ c = '\t' ∨ c = '\n' ∨ c = '\r')
    ((chars s).dropWhile (fun c => c = ' ' ∨ c = '\t' ∨ c = '\n' ∨ c = '\r')))

/-- The character set escaped by Go's `regexp.QuoteMeta`. -/
def isRegexSpecial (c : Char) : Bool :=
  c = '\\' ∨ c = '.' ∨ c = '+' ∨ c = '*' ∨ c = '?' ∨ c = '(' ∨ c = ')' ∨
    c = '|' ∨ c = '[' ∨ c = ']' ∨ c = '\x7b' ∨ c = '\x7d' ∨ c = '^' ∨ c = '$'

/-- `regexp.QuoteMeta`. -/
def quoteMeta (s : String) : String :=
  ofChars ((chars s).flatMap fun c => if isRegexSpecial c then ['\\', c] else [c])

/-- Per-token body of the `templateToRegExp` loop (route_test.go source):
returns the regex piece written after the `/`, the literal-character count
contribution, and the variable name if the token is a variable.  `none`
models the Go slice panics on degenerate tokens (e.g. a lone `"\x7b"`). -/
def tokenPiece (each : String) : Option (String × Nat × Option String) :=
  if (chars each).head? = some '\x7b' then
    match strIndex each ':' with
    | some colon =>
      match goSlice each 1 colon,
          goSlice each (colon + 1) ((chars each).length - 1) with
      | some namePart, some exprPart =>
        let varName := trimSpaceStr namePart
        let paramExpr := trimSpaceStr exprPart
        if paramExpr = "*" then some ("(.*)", 0, some varName)
        else some ("(" ++ paramExpr ++ ")", 0, some varName)
      | _, _ => none
    | none =>
      match goSlice each 1 ((chars each).length - 1) with
      | some namePart => some ("([^/]+?)", 0, some (trimSpaceStr namePart))
      | none => none
  else some (quoteMeta each, (chars each).length, none)

/-- Fold of the `templateToRegExp` loop: accumulate the buffer (starting at
`"^"`), the literal count, the variable names and the variable count,
skipping empty tokens before the `/` is written. -/
def ttrAux : List String → String → Nat → List String → Nat →
    Option (String × Nat × List String × Nat)
  | [], buf, lit, vns, vc => some (buf, lit, vns, vc)
  | each :: rest, buf, lit, vns, vc =>
    if each = "" then ttrAux rest buf lit vns vc
    else
      match tokenPiece each with
      | none => none
      | some (piece, litAdd, varName?) =>
        ttrAux rest (buf ++ "/" ++ piece) (lit + litAdd)
          (vns ++ (match varName? with | some v => [v] | none => []))
          (vc + (match varName? with | some _ => 1 | none => 0))

/-- `templateToRegExp` (route_test.go source): the final expression is the
right-`/`-trimmed buffer followed by the optional-remainder anchor
`(/.*)?$`; also returns literal count, variable names, variable count and
the token list. -/
def templateToRegExp (template : String) :
    Option (String × Nat × List String × Nat × List String) :=
  let tokens := TokenizePath template
  match ttrAux tokens "^" 0 [] 0 with
  | none => none
  | some (buf, lit, vns, vc) =>
    some (ofChars (dropTrailing (· = '/') (chars buf)) ++ "(/.*)?$",
      lit, vns, vc, tokens)

/-! ### Structured path tokens

Used to state claims that quantify over well-formed route templates: a
token is a literal, a plain variable or a constrained variable, rendered to
the concrete token strings the engine consumes. -/

/-- A structured path token. -/
inductive PathToken where
  | lit (s : String)
  | pvar (name : String)
  | varRegex (name expr : String)
deriving DecidableEq, Repr

/-- Render a structured token to its template string. -/
def renderToken : PathToken → String
  | .lit s => s
  | .pvar n => "\x7b" ++ n ++ "\x7d"
  | .varRegex n e => "\x7b" ++ n ++ ":" ++ e ++ "\x7d"

/-- Well-formedness for parameter extraction: a literal contains no `{`
(otherwise the extractor misreads it as a parameter), a plain variable name
contains no `}` (so the token's first `}` is its last character). -/
def wfPathToken : PathToken → Prop
  | .lit s => '\x7b' ∉ chars s
  | .pvar n => '\x7d' ∉ chars n
  | .varRegex _ _ => True

end LCP

deriving instance DecidableEq for Except

namespace LCP

/-! ## Helper lemmas -/

theorem listLexLt_asymm : ∀ (a b : List Nat),
    listLexLt a b = true → listLexLt b a = false := by
  intro a
  induction a with
  | nil => intro b h; cases b <;> simp [listLexLt] at h ⊢
  | cons x xs ih =>
    intro b h
    cases b with
    | nil => simp [listLexLt] at h
    | cons y ys =>
      simp only [listLexLt] at h ⊢
      split_ifs at h ⊢ <;> first | rfl | omega | exact ih ys h

theorem listLexLt_cotrans : ∀ (a c : List Nat), listLexLt a c = true →
    ∀ b, listLexLt a b = true ∨ listLexLt b c = true := by
  intro a
  induction a with
  | nil =>
    intro c h b
    cases c with
    | nil => simp [listLexLt] at h
    | cons z zs =>
      cases b with
      | nil => right; simp [listLexLt]
      | cons y ys => left; simp [listLexLt]
  | cons x xs ih =>
    intro c h b
    cases c with
    | nil => simp [listLexLt] at h
    | cons z zs =>
      cases b with
      | nil => right; simp [listLexLt]
      | cons y ys =>
        simp only [listLexLt] at h ⊢
        split_ifs at h ⊢ <;>
          first
          | tauto
          | omega
          | (rcases ih zs h ys with hl | hr
             · exact Or.inl hl
             · exact Or.inr hr)

theorem strLt_asymm (x y : String) : strLt x y = true → strLt y x = false :=
  fun h => listLexLt_asymm _ _ h

theorem strLt_cotrans (x z : String) (h : strLt x z = true) (y : String) :
    strLt x y = true ∨ strLt y z = true :=
  listLexLt_cotrans _ _ h _

theorem curlyLess_asymm (x y : Route) :
    curlyLess x y = true → curlyLess y x = false := by
  unfold curlyLess
  split_ifs <;> intro h <;>
    first | rfl | omega | exact strLt_asymm _ _ h | simp_all

theorem routeBefore_total : ∀ x y : Route, routeBefore x y ∨ routeBefore y x := by
  intro x y
  unfold routeBefore
  rcases hxy : curlyLess y x with _ | _
  · exact Or.inl rfl
  · exact Or.inr (curlyLess_asymm y x hxy)

theorem curlyLess_iff (x y : Route) : curlyLess x y = true ↔ keyLt y x := by
  unfold curlyLess keyLt
  split_ifs with h1 h2 h3 h4
  · simp [h1]
  · constructor
    · intro h; cases h
    · intro h; exfalso; rcases h with h | ⟨he, _⟩ <;> omega
  · have he : y.staticCount = x.staticCount := by omega
    simp [he, h3]
  · constructor
    · intro h; cases h
    · intro h; exfalso
      rcases h with h | ⟨_, h | ⟨hp, _⟩⟩ <;> omega
  · have he : y.staticCount = x.staticCount := by omega
    have hp : y.paramCount = x.paramCount := by omega
    simp [he, hp]

theorem keyLt_cotrans (z x : Route) (h : keyLt z x) (y : Route) :
    keyLt z y ∨ keyLt y x := by
  unfold keyLt at h ⊢
  rcases h with h | ⟨hse, h⟩
  · by_cases hy : z.staticCount < y.staticCount
    · exact Or.inl (Or.inl hy)
    · exact Or.inr (Or.inl (by omega))
  · by_cases hzy : z.staticCount < y.staticCount
    · exact Or.inl (Or.inl hzy)
    · by_cases hyx : y.staticCount < x.staticCount
      · exact Or.inr (Or.inl hyx)
      · have he1 : z.staticCount = y.staticCount := by omega
        have he2 : y.staticCount = x.staticCount := by omega
        rcases h with h | ⟨hpe, h⟩
        · by_cases hpy : z.paramCount < y.paramCount
          · exact Or.inl (Or.inr ⟨he1, Or.inl hpy⟩)
          · exact Or.inr (Or.inr ⟨he2, Or.inl (by omega)⟩)
        · by_cases hpy : z.paramCount < y.paramCount
          · exact Or.inl (Or.inr ⟨he1, Or.inl hpy⟩)
          · by_cases hpx : y.paramCount < x.paramCount
            · exact Or.inr (Or.inr ⟨he2, Or.inl hpx⟩)
            · have hp1 : z.paramCount = y.paramCount := by omega
              have hp2 : y.paramCount = x.paramCount := by omega
              rcases strLt_cotrans _ _ h y.Path with hl | hr
              · exact Or.inl (Or.inr ⟨he1, Or.inr ⟨hp1, hl⟩⟩)
              · exact Or.inr (Or.inr ⟨he2, Or.inr ⟨hp2, hr⟩⟩)

theorem routeBefore_trans :
    ∀ x y z : Route, routeBefore x y → routeBefore y z → routeBefore x z := by
  intro x y z hxy hyz
  unfold routeBefore at hxy hyz ⊢
  by_contra hc
  have hzx : curlyLess z x = true := by
    cases h : curlyLess z x
    · exact absurd h hc
    · rfl
  have hk : keyLt x z := (curlyLess_iff z x).mp hzx
  rcases keyLt_cotrans x z hk y with h1 | h2
  · have := (curlyLess_iff y x).mpr h1
    rw [hxy] at this; cases this
  · have := (curlyLess_iff z y).mpr h2
    rw [hyz] at this; cases this

theorem dedupFirstSeen_spec : ∀ (xs acc : List String), acc.Nodup →
    (List.foldl (fun acc m => if m ∈ acc then acc else acc ++ [m]) acc xs).Nodup ∧
    (∀ m, m ∈ List.foldl (fun acc m => if m ∈ acc then acc else acc ++ [m]) acc xs ↔
      m ∈ acc ∨ m ∈ xs) ∧
    ∃ ys, List.foldl (fun acc m => if m ∈ acc then acc else acc ++ [m]) acc xs =
        acc ++ ys ∧ ys.Sublist xs := by
  intro xs
  induction xs with
  | nil => intro acc h; exact ⟨h, by simp, [], by simp, List.Sublist.refl _⟩
  | cons x xs ih =>
    intro acc h
    by_cases hx : x ∈ acc
    · simp only [List.foldl_cons, if_pos hx]
      obtain ⟨h1, h2, ys, h3, h4⟩ := ih acc h
      refine ⟨h1, ?_, ys, h3, h4.cons x⟩
      intro m
      rw [h2]
      constructor
      · rintro (hm | hm) <;> simp [hm]
      · rintro (hm | hm)
        · exact Or.inl hm
        · rcases List.mem_cons.mp hm with rfl | hm
          · exact Or.inl hx
          · exact Or.inr hm
    · simp only [List.foldl_cons, if_neg hx]
      have hnd : (acc ++ [x]).Nodup := by
        simp [List.nodup_append, h, hx]
      obtain ⟨h1, h2, ys, h3, h4⟩ := ih (acc ++ [x]) hnd
      refine ⟨h1, ?_, x :: ys, by simp [h3], h4.cons₂ x⟩
      intro m
      rw [h2]
      simp [or_assoc]

end LCP
namespace LCP

/-! ## String and list lemmas used by the claim theorems -/

theorem ofChars_chars (s : String) : ofChars (chars s) = s := rfl

theorem chars_ofChars (cs : List Char) : chars (ofChars cs) = cs := rfl

theorem cIndexOf_cons_ne (c a : Char) (cs : List Char) (h : a ≠ c) :
    cIndexOf c (a :: cs) = (cIndexOf c cs).map (· + 1) := by
  simp [cIndexOf, h]

theorem cIndexOf_isSome_iff (c : Char) : ∀ cs : List Char,
    (cIndexOf c cs).isSome = true ↔ c ∈ cs := by
  intro cs
  induction cs with
  | nil => simp [cIndexOf]
  | cons a as ih =>
    by_cases ha : a = c
    · simp [cIndexOf, ha]
    · rw [cIndexOf_cons_ne c a as ha]
      have hmap : (Option.map (· + 1) (cIndexOf c as)).isSome = (cIndexOf c as).isSome := by
        cases cIndexOf c as <;> rfl
      rw [hmap, ih, List.mem_cons]
      have : ¬ c = a := fun hh => ha hh.symm
      tauto

theorem cIndexOf_get : ∀ (cs : List Char) (c : Char) (k : Nat),
    cIndexOf c cs = some k → k < cs.length ∧ cs[k]? = some c := by
  intro cs
  induction cs with
  | nil => intro c k h; simp [cIndexOf] at h
  | cons a as ih =>
    intro c k h
    by_cases ha : a = c
    · simp [cIndexOf, ha] at h
      subst h; simp [ha]
    · rw [cIndexOf_cons_ne c a as ha] at h
      cases hk : cIndexOf c as with
      | none => rw [hk] at h; simp at h
      | some ki =>
        rw [hk] at h; simp at h
        obtain ⟨h1, h2⟩ := ih c ki hk
        subst h
        refine ⟨by simpa using h1, by simpa using h2⟩

theorem cIndexOf_eq_none (c : Char) (cs : List Char) (h : c ∉ cs) :
    cIndexOf c cs = none := by
  cases hk : cIndexOf c cs with
  | none => rfl
  | some k =>
    exfalso
    have : (cIndexOf c cs).isSome = true := by rw [hk]; rfl
    exact h ((cIndexOf_isSome_iff c cs).mp this)

theorem cIndexOf_append_not_mem (c : Char) : ∀ (xs ys : List Char), c ∉ xs →
    cIndexOf c (xs ++ ys) = (cIndexOf c ys).map (· + xs.length) := by
  intro xs
  induction xs with
  | nil => intro ys h; simp
  | cons a as ih =>
    intro ys h
    have ha : a ≠ c := fun hc => h (by simp [hc])
    have has : c ∉ as := fun hc => h (by simp [hc])
    rw [List.cons_append, cIndexOf_cons_ne c a _ ha, ih ys has]
    cases cIndexOf c ys <;> simp
    omega

theorem goSlice_isSome (s : String) (a b : Nat) (h1 : a ≤ b)
    (h2 : b ≤ (chars s).length) :
    goSlice s a b = some (ofChars (((chars s).drop a).take (b - a))) := by
  simp [goSlice, h1, h2]

theorem verbSplit_decomp (s p v : String) (h : verbSplit s = some (p, v)) :
    chars s = chars p ++ ':' :: chars v := by
  unfold verbSplit at h
  split at h
  next restRev hdw =>
    split_ifs at h with hemp
    simp only [Option.some.injEq, Prod.mk.injEq] at h
    obtain ⟨hp, hv⟩ := h
    have hsplit : (chars s).reverse =
        ((chars s).reverse.takeWhile isAlphaChar) ++
          ((chars s).reverse.dropWhile isAlphaChar) :=
      (List.takeWhile_append_dropWhile _ _).symm
    rw [hdw] at hsplit
    have hchars : chars s = restRev.reverse ++ ':' ::
        ((chars s).reverse.takeWhile isAlphaChar).reverse := by
      have := congrArg List.reverse hsplit
      simpa using this
    rw [hchars, ← hp, ← hv]
    simp [chars_ofChars]
  next hne => simp at h

theorem verbSplit_snoc_none (cs : List Char) (c : Char)
    (h1 : isAlphaChar c = false) (h2 : c ≠ ':') :
    verbSplit (ofChars (cs ++ [c])) = none := by
  unfold verbSplit
  rw [chars_ofChars]
  have hrev : (cs ++ [c]).reverse = c :: cs.reverse := by simp
  rw [hrev, List.dropWhile_cons_of_neg (by simp [h1])]
  split
  next restRev heq =>
    exfalso
    rw [List.cons.injEq] at heq
    exact h2 heq.1
  next => rfl

theorem removeCustomVerb_sub (s : String) (c : Char)
    (h : c ∉ chars s) : c ∉ chars (removeCustomVerb s) := by
  unfold removeCustomVerb
  cases hv : verbSplit s with
  | none => exact h
  | some pv =>
    obtain ⟨p, v⟩ := pv
    have := verbSplit_decomp s p v hv
    intro hc
    exact h (by rw [this]; simp [hc])

theorem mem_mapInsert (k v : String) : ∀ (m : List (String × String)) kv,
    kv ∈ mapInsert k v m → kv = (k, v) ∨ kv ∈ m := by
  intro m
  induction m with
  | nil => intro kv h; simp [mapInsert] at h; exact Or.inl h
  | cons e rest ih =>
    intro kv h
    obtain ⟨k', v'⟩ := e
    by_cases hk : k' = k
    · simp [mapInsert, hk] at h
      rcases h with h | h
      · exact Or.inl (by simp [h])
      · exact Or.inr (by simp [h])
    · simp [mapInsert, hk] at h
      rcases h with h | h
      · exact Or.inr (by simp [h])
      · rcases ih kv h with h' | h'
        · exact Or.inl h'
        · exact Or.inr (by simp [h'])

theorem unTokenizePath_beyond (offset : Nat) (parts : List String)
    (h : parts.length ≤ offset) : unTokenizePath offset parts = "" := by
  unfold unTokenizePath
  rw [List.drop_eq_nil_of_le h]
  rfl


theorem goSliceI_full (s : String) :
    goSliceI s 0 ((chars s).length : Int) = some s := by
  unfold goSliceI
  rw [if_pos]
  · simp [ofChars_chars]
  · refine ⟨le_refl _, by positivity, le_refl _⟩

theorem colon_bounds (mid : List Char) (c : Nat)
    (hc : cIndexOf ':' ('\x7b' :: (mid ++ ['\x7d'])) = some c) :
    1 ≤ c ∧ c + 1 ≤ ('\x7b' :: (mid ++ ['\x7d'])).length - 1 := by
  rw [cIndexOf_cons_ne ':' '\x7b' _ (by decide)] at hc
  cases hk : cIndexOf ':' (mid ++ ['\x7d']) with
  | none => rw [hk] at hc; simp at hc
  | some k =>
    rw [hk] at hc; simp at hc
    obtain ⟨hlt, hget⟩ := cIndexOf_get _ _ _ hk
    subst hc
    constructor
    · omega
    · simp only [List.length_cons, List.length_append, List.length_singleton]
      by_cases hke : k = mid.length
      · exfalso
        subst hke
        rw [List.getElem?_concat_length] at hget
        simp at hget
      · simp [List.length_append] at hlt
        omega

theorem extract_step_key (key : String) (mid : List Char)
    (hckey : chars key = '\x7b' :: (mid ++ ['\x7d']))
    (hnb : '\x7d' ∉ mid ∨ ':' ∈ mid) (hv : Bool)
    (urlParts : List String) (i : Nat) (m₀ : List (String × String))
    (rest : List String) :
    (∃ keyPart x, extractLoop hv urlParts i (key :: rest) m₀ =
        some (mapInsert keyPart x m₀) ∧ (urlParts.length ≤ i → x = "")) ∨
    (∃ m₁, extractLoop hv urlParts i (key :: rest) m₀ =
        extractLoop hv urlParts (i + 1) rest m₁ ∧
      (m₁ = m₀ ∨ ∃ k x, m₁ = mapInsert k x m₀ ∧ (urlParts.length ≤ i → x = ""))) := by
  have hval0 : urlParts.length ≤ i →
      (if urlParts.length ≤ i then "" else urlParts.getD i "") = "" :=
    fun hb => if_pos hb
  have hofkey : key = ofChars (('\x7b' :: mid) ++ ['\x7d']) := by
    rw [← ofChars_chars key, hckey]
    simp
  have hverb : hasCustomVerb key = false := by
    unfold hasCustomVerb
    rw [hofkey, verbSplit_snoc_none _ _ (by decide) (by decide)]
    rfl
  have hcont : strContains key '\x7b' = true := by
    unfold strContains
    rw [hckey]
    simp [cIndexOf]
  have hlen : (chars key).length = mid.length + 2 := by
    rw [hckey]; simp
  rw [extractLoop]
  simp only [hverb, Bool.false_eq_true, and_false, if_false, hcont, if_true]
  cases hcol : strIndex key ':' with
  | some c =>
    have hc' : cIndexOf ':' ('\x7b' :: (mid ++ ['\x7d'])) = some c := by
      have h0 := hcol
      unfold strIndex at h0
      rw [hckey] at h0
      exact h0
    obtain ⟨hb1, hb2⟩ := colon_bounds mid c hc'
    have hb2' : c + 1 ≤ (chars key).length - 1 := by
      rw [hlen]
      simpa using hb2
    have hs1 := goSlice_isSome key (c + 1) ((chars key).length - 1) hb2'
      (by omega)
    have hs2 := goSlice_isSome key 1 c hb1 (by omega)
    simp only [hcol, hs1, hs2]
    by_cases hstar :
        ofChars (((chars key).drop (c + 1)).take ((chars key).length - 1 - (c + 1))) = "*"
    · rw [if_pos hstar]
      left
      exact ⟨_, unTokenizePath i urlParts, rfl,
        fun hb => unTokenizePath_beyond _ _ hb⟩
    · rw [if_neg hstar]
      right
      exact ⟨_, rfl, Or.inr ⟨_, _, rfl, hval0⟩⟩
  | none =>
    have hfree : '\x7d' ∉ mid := by
      rcases hnb with h | h
      · exact h
      · exfalso
        have hmem : ':' ∈ chars key := by rw [hckey]; simp [h]
        have := (cIndexOf_isSome_iff ':' (chars key)).mpr hmem
        unfold strIndex at hcol
        rw [hcol] at this
        cases this
    have hidx0 : strIndex key '\x7b' = some 0 := by
      unfold strIndex
      rw [hckey]
      simp [cIndexOf]
    have hidx1 : strIndex key '\x7d' = some (mid.length + 1) := by
      unfold strIndex
      rw [hckey, cIndexOf_cons_ne _ _ _ (by decide),
        cIndexOf_append_not_mem _ _ _ hfree]
      simp [cIndexOf]
    have hs3 : goSlice key (0 + 1) (mid.length + 1) =
        some (ofChars (((chars key).drop (0 + 1)).take (mid.length + 1 - (0 + 1)))) :=
      goSlice_isSome key (0 + 1) (mid.length + 1) (by omega) (by omega)
    simp only [hcol, hidx0, hidx1, hs3]
    have hint : ∀ V : String,
        ((chars V).length : Int) - (((chars key).length : Int) - ((mid.length + 1 : Nat) : Int) - 1) =
          ((chars V).length : Int) := by
      intro V
      rw [hlen]
      push_cast
      ring
    rw [hint]
    simp only [Nat.cast_zero]
    rw [goSliceI_full]
    right
    exact ⟨_, rfl, Or.inr ⟨_, _, rfl, hval0⟩⟩


theorem extract_step (t : PathToken) (hwf : wfPathToken t) (hv : Bool)
    (urlParts : List String) (i : Nat) (m₀ : List (String × String))
    (rest : List String) :
    (∃ keyPart x, extractLoop hv urlParts i (renderToken t :: rest) m₀ =
        some (mapInsert keyPart x m₀) ∧ (urlParts.length ≤ i → x = "")) ∨
    (∃ m₁, extractLoop hv urlParts i (renderToken t :: rest) m₀ =
        extractLoop hv urlParts (i + 1) rest m₁ ∧
      (m₁ = m₀ ∨ ∃ k x, m₁ = mapInsert k x m₀ ∧ (urlParts.length ≤ i → x = ""))) := by
  cases t with
  | lit s =>
    right
    have hfree : '\x7b' ∉ chars s := hwf
    have hcont : ∀ key : String, '\x7b' ∉ chars key →
        strContains key '\x7b' = false := by
      intro key hk
      unfold strContains
      rw [cIndexOf_eq_none _ _ hk]
      rfl
    refine ⟨m₀, ?_, Or.inl rfl⟩
    rw [extractLoop]
    simp only [renderToken]
    by_cases hvp : hv = true ∧ hasCustomVerb s = true
    · rw [if_neg]
      simp only [if_pos hvp]
      rw [hcont _ (removeCustomVerb_sub s _ hfree)]
      simp
    · rw [if_neg]
      simp only [if_neg hvp]
      rw [hcont _ hfree]
      simp
  | pvar n =>
    have hfree : '\x7d' ∉ chars n := hwf
    have hckey : chars ("\x7b" ++ n ++ "\x7d") = '\x7b' :: (chars n ++ ['\x7d']) := by
      simp [chars]
    exact extract_step_key _ (chars n) hckey (Or.inl hfree) hv urlParts i m₀ rest
  | varRegex n e =>
    have hckey : chars ("\x7b" ++ n ++ ":" ++ e ++ "\x7d") =
        '\x7b' :: ((chars n ++ ':' :: chars e) ++ ['\x7d']) := by
      simp [chars]
    exact extract_step_key _ (chars n ++ ':' :: chars e) hckey
      (Or.inr (by simp)) hv urlParts i m₀ rest

theorem extractLoop_wf : ∀ (toks : List PathToken) (hv : Bool)
    (urlParts : List String) (i : Nat) (m₀ : List (String × String)),
    (∀ t ∈ toks, wfPathToken t) →
    ∃ m, extractLoop hv urlParts i (toks.map renderToken) m₀ = some m ∧
      (urlParts.length ≤ i → ∀ kv ∈ m, kv ∈ m₀ ∨ kv.2 = "") := by
  intro toks
  induction toks with
  | nil =>
    intro hv urlParts i m₀ _
    exact ⟨m₀, rfl, fun _ kv hkv => Or.inl hkv⟩
  | cons t ts ih =>
    intro hv urlParts i m₀ hwf
    have hwft := hwf t (by simp)
    have hwfts : ∀ u ∈ ts, wfPathToken u := fun u hu => hwf u (by simp [hu])
    rcases extract_step t hwft hv urlParts i m₀ (ts.map renderToken) with
      ⟨keyPart, x, hstop, hx⟩ | ⟨m₁, hcontinue, hm₁⟩
    · refine ⟨mapInsert keyPart x m₀, by simpa using hstop, ?_⟩
      intro hb kv hkv
      rcases mem_mapInsert _ _ _ _ hkv with h | h
      · right
        rw [h, hx hb]
      · exact Or.inl h
    · obtain ⟨m, hm, hbey⟩ := ih hv urlParts (i + 1) m₁ hwfts
      refine ⟨m, by rw [List.map_cons, hcontinue]; exact hm, ?_⟩
      intro hb kv hkv
      rcases hbey (by omega) kv hkv with h | h
      · rcases hm₁ with rfl | ⟨k, x, rfl, hx⟩
        · exact Or.inl h
        · rcases mem_mapInsert _ _ _ _ h with h' | h'
          · right
            rw [h', hx hb]
          · exact Or.inl h'
      · exact Or.inr h


theorem dropTrailing_cons_head (p : Char → Bool) (c : Char) (cs : List Char)
    (hp : p c = false) : (dropTrailing p (c :: cs)).head? = some c := by
  show (match dropTrailing p cs with
    | [] => if p c then [] else [c]
    | r => c :: r).head? = some c
  cases hd : dropTrailing p cs with
  | nil => simp [hp]
  | cons a r => simp

theorem ttrAux_head : ∀ (tokens : List String) (buf : String) (lit : Nat)
    (vns : List String) (vc : Nat) (out : String × Nat × List String × Nat),
    ttrAux tokens buf lit vns vc = some out → chars buf ≠ [] →
    (chars out.1).head? = (chars buf).head? := by
  intro tokens
  induction tokens with
  | nil =>
    intro buf lit vns vc out h hne
    simp only [ttrAux, Option.some.injEq] at h
    rw [← h]
  | cons tok rest ih =>
    intro buf lit vns vc out h hne
    rw [ttrAux] at h
    by_cases htok : tok = ""
    · rw [if_pos htok] at h
      exact ih buf lit vns vc out h hne
    · rw [if_neg htok] at h
      cases hp : tokenPiece tok with
      | none => rw [hp] at h; cases h
      | some piece =>
        rw [hp] at h
        have hne2 : chars (buf ++ "/" ++ piece.1) ≠ [] := by
          have : chars (buf ++ "/" ++ piece.1) =
              chars buf ++ chars "/" ++ chars piece.1 := by simp [chars]
          rw [this]
          intro hc
          apply hne
          simpa using congrArg (List.take (chars buf).length) hc
        have := ih _ _ _ _ _ h hne2
        rw [this]
        have hx : chars (buf ++ "/" ++ piece.1) =
            chars buf ++ (chars "/" ++ chars piece.1) := by simp [chars]
        rw [hx]
        cases hb : chars buf with
        | nil => exact absurd hb hne
        | cons b bs => simp

theorem templateToRegExp_anchored : ∀ (template : String)
    (out : String × Nat × List String × Nat × List String),
    templateToRegExp template = some out →
    ∃ pre : String, out.1 = pre ++ "(/.*)?$" ∧ (chars pre).head? = some '^' := by
  intro template out h
  unfold templateToRegExp at h
  simp only [] at h
  cases ha : ttrAux (TokenizePath template) "^" 0 [] 0 with
  | none => rw [ha] at h; cases h
  | some quad =>
    rw [ha] at h
    obtain ⟨buf, lit, vns, vc⟩ := quad
    simp only [Option.some.injEq] at h
    refine ⟨ofChars (dropTrailing (· = '/') (chars buf)), ?_, ?_⟩
    · rw [← h]
    · have hhead := ttrAux_head _ _ _ _ _ _ ha (by decide)
      rw [chars_ofChars]
      cases hb : chars buf with
      | nil => rw [hb] at hhead; simp at hhead; cases hhead
      | cons b bs =>
        rw [hb] at hhead
        simp at hhead
        have : b = '^' := by
          have : (chars "^").head? = some '^' := by decide
          rw [this] at hhead
          simpa using hhead
        subst this
        exact dropTrailing_cons_head _ _ _ (by decide)


theorem tokenPiece_lit (s : String) (h : ¬ (chars s).head? = some '\x7b') :
    tokenPiece s = some (quoteMeta s, (chars s).length, none) := by
  unfold tokenPiece
  rw [if_neg h]

theorem tokenPiece_var (n : String) (hcn : ':' ∉ chars n)
    (htrim : trimSpaceStr n = n) :
    tokenPiece ("\x7b" ++ n ++ "\x7d") = some ("([^/]+?)", 0, some n) := by
  have hckey : chars ("\x7b" ++ n ++ "\x7d") = '\x7b' :: (chars n ++ ['\x7d']) := by
    simp [chars]
  unfold tokenPiece
  rw [if_pos (by rw [hckey]; rfl)]
  have hcol : strIndex ("\x7b" ++ n ++ "\x7d") ':' = none := by
    unfold strIndex
    rw [hckey]
    exact cIndexOf_eq_none _ _ (by simp [hcn])
  rw [hcol]
  have hlen : (chars ("\x7b" ++ n ++ "\x7d")).length = (chars n).length + 2 := by
    rw [hckey]; simp
  have hslice : goSlice ("\x7b" ++ n ++ "\x7d") 1
      ((chars ("\x7b" ++ n ++ "\x7d")).length - 1) = some n := by
    unfold goSlice
    rw [if_pos (by omega)]
    rw [hlen, hckey]
    simp only [List.drop_succ_cons, List.drop_zero]
    have harith : (chars n).length + 2 - 1 - 1 = (chars n).length := by omega
    rw [harith, List.take_left, ofChars_chars]
  rw [hslice]
  simp [htrim]

theorem tokenPiece_varRegex (n e : String) (hcn : ':' ∉ chars n)
    (htn : trimSpaceStr n = n) (hte : trimSpaceStr e = e) :
    tokenPiece ("\x7b" ++ n ++ ":" ++ e ++ "\x7d") =
      some (if e = "*" then "(.*)" else "(" ++ e ++ ")", 0, some n) := by
  have hckey : chars ("\x7b" ++ n ++ ":" ++ e ++ "\x7d") =
      '\x7b' :: (chars n ++ ':' :: (chars e ++ ['\x7d'])) := by
    simp [chars]
  unfold tokenPiece
  rw [if_pos (by rw [hckey]; rfl)]
  have hcol : strIndex ("\x7b" ++ n ++ ":" ++ e ++ "\x7d") ':' =
      some ((chars n).length + 1) := by
    unfold strIndex
    rw [hckey, cIndexOf_cons_ne _ _ _ (by decide),
      cIndexOf_append_not_mem _ _ _ hcn]
    simp [cIndexOf]
  rw [hcol]
  have hlen : (chars ("\x7b" ++ n ++ ":" ++ e ++ "\x7d")).length =
      (chars n).length + (chars e).length + 3 := by
    rw [hckey]; simp
    omega
  have hs1 : goSlice ("\x7b" ++ n ++ ":" ++ e ++ "\x7d") 1 ((chars n).length + 1) =
      some n := by
    unfold goSlice
    rw [if_pos (by omega)]
    rw [hckey]
    simp only [List.drop_succ_cons, List.drop_zero]
    have harith : (chars n).length + 1 - 1 = (chars n).length := by omega
    rw [harith, List.take_left, ofChars_chars]
  have hs2 : goSlice ("\x7b" ++ n ++ ":" ++ e ++ "\x7d") ((chars n).length + 1 + 1)
      ((chars ("\x7b" ++ n ++ ":" ++ e ++ "\x7d")).length - 1) = some e := by
    unfold goSlice
    rw [if_pos (by omega)]
    rw [hlen, hckey]
    have hd : ('\x7b' :: (chars n ++ ':' :: (chars e ++ ['\x7d']))).drop
        ((chars n).length + 1 + 1) = chars e ++ ['\x7d'] := by
      have : '\x7b' :: (chars n ++ ':' :: (chars e ++ ['\x7d'])) =
          ('\x7b' :: chars n ++ [':']) ++ (chars e ++ ['\x7d']) := by simp
      rw [this]
      have hl : ('\x7b' :: chars n ++ [':']).length = (chars n).length + 1 + 1 := by
        simp
      rw [← hl, List.drop_left]
    rw [hd]
    have harith : (chars n).length + (chars e).length + 3 - 1 -
        ((chars n).length + 1 + 1) = (chars e).length := by omega
    rw [harith, List.take_left, ofChars_chars]
  simp only [hs1, hs2, htn, hte]
  by_cases he : e = "*"
  · rw [if_pos he, if_pos he]
  · rw [if_neg he, if_neg he]


/-! ## Claim theorems -/

/-- C1: the claim states that a variable token with a regex constraint
scores the extra point only when the request token satisfies the constraint.
The code does not do this: on a cache miss, `regularMatchesPathToken`
compiles the *request token* `"abc"` instead of the constraint `"[0-9]+"`,
stores the result under the key `"[0-9]+"`, and matches `"abc"` against
itself, so `computeWebServiceScore` grants the bonus (score 2, not 1) even
though — as the unused hypothesis records — `"abc"` does not satisfy
`"[0-9]+"`; the cache is left poisoned with the pair
`("[0-9]+", "abc")`.  Holds for every regex oracle `rm` and
compilation oracle `compiles` for which the pattern `"abc"` compiles and
matches itself (true of Go's regexp). -/
theorem claim_C1 : ∀ (rm : String → String → Bool) (compiles : String → Bool),
    compiles "abc" = true → rm "abc" "abc" = true → rm "[0-9]+" "abc" = false →
    computeWebServiceScore rm compiles [] ["abc"] ["{id:[0-9]+}"] =
      ((true, 2), [("[0-9]+", "abc")]) := by
  intro rm compiles h1 h2 _
  simp +decide [computeWebServiceScore, cwsAux, regularMatchesPathToken,
    lookupCache, storeCache, h1, h2]

/-- C1 witness: the hypotheses of `claim_C1` are satisfied by a concrete
regex oracle (syntactic pattern-equals-input). -/
theorem claim_C1_witness :
    computeWebServiceScore (fun p s => p == s) (fun _ => true) []
        ["abc"] ["{id:[0-9]+}"] = ((true, 2), [("[0-9]+", "abc")]) ∧
    (fun p s : String => p == s) "[0-9]+" "abc" = false :=
  ⟨claim_C1 (fun p s => p == s) (fun _ => true) (by decide) (by decide)
    (by decide), by decide⟩

/-- C2 (counterexample): the claim says the final tie-break sorts by
*ascending* path, so of two candidates with equal `staticCount` and
`paramCount` the lexicographically *smaller* path should win.  On the code,
for service root `/` with routes `GET /users/\x7ba\x7d` and
`GET /users/\x7bb\x7d` (registered in that order) and request
`GET /users/7`, both candidates score `staticCount = 1`, `paramCount = 1`,
yet the route selected end-to-end by `SelectRoute` is `/users/\x7bb\x7d`
— the lexicographically larger path. -/
theorem claim_C2_counterexample :
    (match (SelectRoute (fun p s => p == s) (fun _ => true) []
        [{ rootPath := "/", tokens := tokenizePath "/",
           routes := [postBuild { Method := "GET", Path := "/users/{a}" },
                      postBuild { Method := "GET", Path := "/users/{b}" }] }]
        "/users/7" "GET" "" "").1 with
     | .ok p => p.2.Path
     | .error _ => "") = "/users/{b}" ∧
    strLt "/users/{a}" "/users/{b}" = true ∧
    (selectRoutes (fun p s => p == s) (fun _ => true) []
        { rootPath := "/", tokens := tokenizePath "/",
          routes := [postBuild { Method := "GET", Path := "/users/{a}" },
                     postBuild { Method := "GET", Path := "/users/{b}" }] }
        (tokenizePath "/users/7")).1.map
      (fun r => (r.Path, r.staticCount, r.paramCount)) =
      [("/users/{b}", 1, 1), ("/users/{a}", 1, 1)] := by decide

/-- C2 (amended): surviving routes are ordered by descending `staticCount`,
then descending `paramCount`, then *descending* absolute path — because
`sortableCurlyRoutes.Less` binds `a := s[j]`, `b := s[i]`, every comparison
(including the path tie-break) is reversed, so of two candidates with equal
counts the lexicographically *larger* path wins, regardless of registration
order.  Part 1: the sort is a permutation arranged so that no later element
bears `Less` to an earlier one.  Part 2: the reversed tie-break on
two-element candidate lists. -/
theorem claim_C2 :
    (∀ l : List Route, (sortRoutes l).Perm l ∧
      List.Sorted routeBefore (sortRoutes l)) ∧
    (∀ a b : Route, a.staticCount = b.staticCount →
      a.paramCount = b.paramCount → strLt a.Path b.Path = true →
      sortRoutes [a, b] = [b, a] ∧ sortRoutes [b, a] = [b, a]) := by
  constructor
  · intro l
    haveI : IsTotal Route routeBefore := ⟨routeBefore_total⟩
    haveI : IsTrans Route routeBefore := ⟨routeBefore_trans⟩
    exact ⟨List.perm_insertionSort routeBefore l,
      List.sorted_insertionSort routeBefore l⟩
  · intro a b hsc hpc hlt
    have hba : curlyLess b a = true := by
      unfold curlyLess
      rw [hsc, hpc]
      simp [hlt]
    have hab : curlyLess a b = false := curlyLess_asymm b a hba
    have hnra : ¬ routeBefore a b := by
      unfold routeBefore
      rw [hba]
      simp
    have hrb : routeBefore b a := by
      unfold routeBefore
      rw [hab]
    constructor
    · show List.insertionSort routeBefore [a, b] = [b, a]
      simp [List.insertionSort, List.orderedInsert, hnra]
    · show List.insertionSort routeBefore [b, a] = [b, a]
      simp [List.insertionSort, List.orderedInsert, hrb]

/-- C2 witness: the amended tie-break applied to concrete equal-count
routes. -/
theorem claim_C2_witness :
    sortRoutes [{ Path := "/a", staticCount := 1, paramCount := 1 },
                { Path := "/b", staticCount := 1, paramCount := 1 }] =
      [{ Path := "/b", staticCount := 1, paramCount := 1 },
       { Path := "/a", staticCount := 1, paramCount := 1 }] ∧
    sortRoutes [{ Path := "/b", staticCount := 1, paramCount := 1 },
                { Path := "/a", staticCount := 1, paramCount := 1 }] =
      [{ Path := "/b", staticCount := 1, paramCount := 1 },
       { Path := "/a", staticCount := 1, paramCount := 1 }] :=
  claim_C2.2 _ _ rfl rfl (by decide)

/-- C3: the claim says a non-empty request Content-Type matches when its
MIME type equals a declared Consumes entry.  The code does not: the
assignment `mimeTypes = MIME_OCTET` sits *outside* the
`len(mimeTypes) == 0` block in `Route.matchesContentType`, so the request
value is unconditionally replaced by the octet-stream constant — a POST
route consuming `application/json` rejects a request whose Content-Type is
exactly `application/json`.  (The claim's idempotent-method exemption does
hold: second conjunct.) -/
theorem claim_C3 :
    matchesContentType
      { Method := "POST", Consumes := ["application/json"] }
      "application/json" = false ∧
    matchesContentType
      { Method := "GET", Consumes := ["application/json"] } "" = true := by
  decide

/-- C4: the claim says a cache miss compiles the pattern text `expr` and
stores it under key `expr`.  The code compiles the *request token* instead:
for route token `\x7bid:[0-9]+\x7d` (colon at index 3) and request token
`"abc"` on an empty cache, the verdict is `rm "abc" "abc"` — the request
token matched against the regex compiled from itself, not against
`"[0-9]+"` — and the cache gains the mismatched pair
`("[0-9]+", "abc")`. -/
theorem claim_C4 : ∀ (rm : String → String → Bool) (compiles : String → Bool),
    compiles "abc" = true →
    regularMatchesPathToken rm compiles [] "{id:[0-9]+}" 3 "abc" =
      ((rm "abc" "abc", false), [("[0-9]+", "abc")]) := by
  intro rm compiles h1
  simp +decide [regularMatchesPathToken, lookupCache, storeCache, h1]

/-- C4 witness: concrete oracle instantiation. -/
theorem claim_C4_witness :
    regularMatchesPathToken (fun p s => p == s) (fun _ => true) []
      "{id:[0-9]+}" 3 "abc" = ((true, false), [("[0-9]+", "abc")]) := by
  have h := claim_C4 (fun p s => p == s) (fun _ => true) (by decide)
  simpa using h

/-- C5: when no candidate route's method equals the request method,
`detectRoute` returns a 405 Service Error whose `Allow` header is the
single value joining (with `", "`) the candidate methods deduplicated in
first-seen order; the `Allow` list is duplicate-free, contains exactly the
candidates' methods, and is a sublist (order-preserving) of the candidate
method sequence. -/
theorem claim_C5 : ∀ (routes : List Route) (method ct ac : String),
    routes ≠ [] → (∀ r ∈ routes, r.Method ≠ method) →
    detectRoute routes method ct ac =
      .error (NewErrorWithHeader 405 "405: Method Not Allowed"
        [("Allow", [joinSep ", " (dedupFirstSeen (routes.map Route.Method))])]) ∧
    (dedupFirstSeen (routes.map Route.Method)).Nodup ∧
    (∀ m, m ∈ dedupFirstSeen (routes.map Route.Method) ↔
      m ∈ routes.map Route.Method) ∧
    (dedupFirstSeen (routes.map Route.Method)).Sublist
      (routes.map Route.Method) := by
  intro routes method ct ac hne hmismatch
  have hfil : routes.filter (fun r => decide (method = r.Method)) = [] := by
    rw [List.filter_eq_nil_iff]
    intro r hr
    simp [Ne.symm (hmismatch r hr)]
  obtain ⟨h1, h2, ys, h3, h4⟩ :=
    dedupFirstSeen_spec (routes.map Route.Method) [] (by simp)
  refine ⟨?_, h1, ?_, ?_⟩
  · simp [detectRoute, List.isEmpty_iff, hne, hfil]
  · intro m
    rw [show dedupFirstSeen (routes.map Route.Method) =
      List.foldl (fun acc m => if m ∈ acc then acc else acc ++ [m]) []
        (routes.map Route.Method) from rfl, h2]
    simp
  · show (List.foldl (fun acc m => if m ∈ acc then acc else acc ++ [m]) []
      (routes.map Route.Method)).Sublist _
    rw [h3]
    simpa using h4

/-- C5 witness: three candidates with methods GET, POST, GET and request
method PUT produce a 405 whose `Allow` value is `"GET, POST"`. -/
theorem claim_C5_witness :
    detectRoute [{ Method := "GET", Path := "/a" },
      { Method := "POST", Path := "/a" },
      { Method := "GET", Path := "/b" }] "PUT" "" "" =
      .error (NewErrorWithHeader 405 "405: Method Not Allowed"
        [("Allow", ["GET, POST"])]) := by
  have h := claim_C5 [{ Method := "GET", Path := "/a" },
    { Method := "POST", Path := "/a" },
    { Method := "GET", Path := "/b" }] "PUT" "" ""
    (by decide) (by decide)
  exact h.1.trans (by decide)

/-- C6: the claim says the appended Route inherits the service's default
Produces/Consumes.  `copyDefaults` does copy the defaults into the builder
(first two conjuncts), but `RouteBuilder.Build` constructs the `Route`
literal without transferring the builder's `produces`/`consumes` fields, so
the route appended by `WebService.Route` carries empty Produces and
Consumes (third conjunct). -/
theorem claim_C6 :
    (copyDefaults
      { rootPath := "/api", httpMethod := "GET", currentPath := "/users" }
      ["application/json"] ["application/xml"]).produces =
        ["application/json"] ∧
    (copyDefaults
      { rootPath := "/api", httpMethod := "GET", currentPath := "/users" }
      ["application/json"] ["application/xml"]).consumes =
        ["application/xml"] ∧
    ((wsRoute
      { rootPath := "/api", tokens := tokenizePath "/api", produces := ["application/json"], consumes := ["application/xml"] }
      (wsGET
        { rootPath := "/api", tokens := tokenizePath "/api", produces := ["application/json"], consumes := ["application/xml"] }
        "/users")).routes.map
      fun r => (r.Method, r.Path, r.Produces, r.Consumes)) =
      [("GET", "/api/users", [], [])] := by
  decide

/-- C7: the route `/users/\x7bid\x7d:get` (token list
`["users", "\x7bid\x7d:get"]`, custom-verb flag set) token-matches the
request `/users/123:get` with `paramCount = 1`, `staticCount = 2`, and
parameter extraction yields `id = 123`; it matches neither `/users/123`
(verb missing) nor `/users/123:delete` (verb mismatch).  The verb suffix is
stripped from both tokens before ordinary matching, and no regex oracle or
cache entry is consulted (the result holds for every `rm`, `compiles` and
cache, which is returned unchanged). -/
theorem claim_C7 : ∀ (rm : String → String → Bool)
    (compiles : String → Bool) (cache : RCache),
    matchesRouteByPathTokens rm compiles cache ["users", "{id}:get"]
      ["users", "123:get"] true = ((true, 1, 2), cache) ∧
    matchesRouteByPathTokens rm compiles cache ["users", "{id}:get"]
      ["users", "123"] true = ((false, 0, 0), cache) ∧
    matchesRouteByPathTokens rm compiles cache ["users", "{id}:get"]
      ["users", "123:delete"] true = ((false, 0, 0), cache) ∧
    ExtractParameters (postBuild { Method := "GET", Path := "/users/{id}:get" })
      "/users/123:get" = some [("id", "123")] ∧
    tokenizePath "/users/{id}:get" = ["users", "{id}:get"] ∧
    hasCustomVerb "/users/{id}:get" = true := by
  intro rm compiles cache
  exact ⟨rfl, rfl, rfl, by decide, by decide, by decide⟩

/-- C8: round-trip extraction — `/users/\x7bid\x7d` against `/users/123`
yields exactly `id = 123`, and `/files/\x7bpath:*\x7d` against
`/files/a/b/c` yields exactly `path = a/b/c` (the wildcard captures the
slash-joined remainder). -/
theorem claim_C8 :
    ExtractParameters (postBuild { Method := "GET", Path := "/users/{id}" })
      "/users/123" = some [("id", "123")] ∧
    ExtractParameters (postBuild { Method := "GET", Path := "/files/{path:*}" })
      "/files/a/b/c" = some [("path", "a/b/c")] := by
  decide

/-- C9: template compilation — the three claim templates compile exactly as
stated; in general a literal token (not starting with a brace) is
regex-escaped and counted, a `\x7bname\x7d` token compiles to the group
`([^/]+?)`, a `\x7bname:expr\x7d` token compiles to `(expr)` except that
`expr = *` compiles to `(.*)` (names/exprs are whitespace-trimmed by the
source, so verbatim use requires them trimmed); and every successful
compilation is anchored: the expression is some prefix starting with `^`
followed by the optional trailing remainder `(/.*)?$`. -/
theorem claim_C9 :
    templateToRegExp "/users/{id}" =
      some ("^/users/([^/]+?)(/.*)?$", 5, ["id"], 1, ["users", "{id}"]) ∧
    templateToRegExp "/users/{id:[0-9]+}" =
      some ("^/users/([0-9]+)(/.*)?$", 5, ["id"], 1, ["users", "{id:[0-9]+}"]) ∧
    templateToRegExp "/files/{path:*}" =
      some ("^/files/(.*)(/.*)?$", 5, ["path"], 1, ["files", "{path:*}"]) ∧
    (∀ s : String, ¬ (chars s).head? = some '\x7b' →
      tokenPiece s = some (quoteMeta s, (chars s).length, none)) ∧
    (∀ n : String, ':' ∉ chars n → trimSpaceStr n = n →
      tokenPiece ("\x7b" ++ n ++ "\x7d") = some ("([^/]+?)", 0, some n)) ∧
    (∀ n e : String, ':' ∉ chars n → trimSpaceStr n = n → trimSpaceStr e = e →
      tokenPiece ("\x7b" ++ n ++ ":" ++ e ++ "\x7d") =
        some (if e = "*" then "(.*)" else "(" ++ e ++ ")", 0, some n)) ∧
    (∀ (template : String) out, templateToRegExp template = some out →
      ∃ pre : String, out.1 = pre ++ "(/.*)?$" ∧ (chars pre).head? = some '^') :=
  ⟨by decide, by decide, by decide, tokenPiece_lit, tokenPiece_var,
    tokenPiece_varRegex, templateToRegExp_anchored⟩

/-- C9 witness: the general clauses at concrete inputs. -/
theorem claim_C9_witness :
    tokenPiece ("\x7b" ++ "id" ++ "\x7d") = some ("([^/]+?)", 0, some "id") ∧
    (∃ pre : String,
      ("^/users/([^/]+?)(/.*)?$" : String) = pre ++ "(/.*)?$" ∧
      (chars pre).head? = some '^') :=
  ⟨claim_C9.2.2.2.2.1 "id" (by decide) (by decide),
    claim_C9.2.2.2.2.2.2 "/users/{id}" _ claim_C9.1⟩

/-- C10 (counterexample): the claim asserts extraction terminates normally
for *every* route on a shorter request.  For the route built from the
template `/a\x7bx\x7d` — whose single token contains a brace but does not
start with one — and the request path `/` (fewer tokens than the route),
the Go code evaluates `value[startIndex:endValueIndex]` as `value[1:0]`, a
slice-bounds panic, modelled as `none`. -/
theorem claim_C10_counterexample :
    ExtractParameters (postBuild { Method := "GET", Path := "/a{x}" }) "/" =
      none ∧
    (tokenizePath "/").length <
      (postBuild { Method := "GET", Path := "/a{x}" }).pathParts.length := by
  decide

/-- C10 (amended): for routes whose tokens are well-formed — literals
containing no `\x7b`, plain variables `\x7bname\x7d` with brace-free
names, or constrained variables `\x7bname:expr\x7d` — extraction always
terminates normally, and every binding added by loop positions at or beyond
the request's tokens has the empty string as its value (so each parameter
beyond the end reads as `""`).  Stated over the extraction loop at an
arbitrary position (part 1) and at the `ExtractParameters` entry point
(part 2). -/
theorem claim_C10 :
    (∀ (toks : List PathToken) (hv : Bool) (urlParts : List String) (i : Nat)
      (m₀ : List (String × String)), (∀ t ∈ toks, wfPathToken t) →
      ∃ m, extractLoop hv urlParts i (toks.map renderToken) m₀ = some m ∧
        (urlParts.length ≤ i → ∀ kv ∈ m, kv ∈ m₀ ∨ kv.2 = "")) ∧
    (∀ (r : Route) (urlPath : String) (toks : List PathToken),
      r.pathParts = toks.map renderToken → (∀ t ∈ toks, wfPathToken t) →
      ∃ m, ExtractParameters r urlPath = some m) := by
  constructor
  · exact extractLoop_wf
  · intro r urlPath toks hparts hwf
    unfold ExtractParameters
    rw [hparts]
    obtain ⟨m, hm, _⟩ :=
      extractLoop_wf toks r.hasCustomVerb (tokenizePath urlPath) 0 [] hwf
    exact ⟨m, hm⟩

/-- C10 witness: the route `/users/\x7bid\x7d` against the shorter request
`/users` extracts successfully. -/
theorem claim_C10_witness :
    ∃ m, ExtractParameters
      (postBuild { Method := "GET", Path := "/users/{id}" }) "/users" =
        some m := by
  refine claim_C10.2 _ _ [PathToken.lit "users", PathToken.pvar "id"]
    (by decide) ?_
  intro t ht
  rcases List.mem_cons.mp ht with rfl | ht
  · show '\x7b' ∉ chars "users"
    decide
  · rcases List.mem_cons.mp ht with rfl | ht
    · show '\x7d' ∉ chars "id"
      decide
    · cases ht

end LCP
